import Mathlib

/-!
Verification of the recurring-transaction scheduler and the sync protocol of
the_accountant_backend, as a shallow embedding of the Python source.

Sources embedded:
- `src/app/models/recurring_config.py` — `RecurringConfig.calculate_next_occurrence`
  (Python `timedelta` / `dateutil.relativedelta` date arithmetic on `datetime.date`).
- `src/app/api/v1/recurring.py` — `process_single_recurring` (the materializer loop)
  and `create_recurring_config` / `update_recurring_config` state transitions.
- `src/app/api/v1/transactions.py` — `update_wallet_balance` (the ledger mutation guard).
- `src/app/api/v1/sync.py` — `get_or_create_sync_log`, `push_changes`, `pull_changes`.

Conventions: UUIDs are modelled as `Nat` (`uuid.uuid4()` becomes drawing from a
fresh-id counter), `Decimal`/`Numeric` amounts as `ℚ` (Python `Decimal` addition
and subtraction are exact, as is `ℚ`), instants (`datetime`) as abstract `Nat`
ticks, and calendar dates as a `(year, month, day)` structure with the same
comparison and arithmetic semantics as Python `datetime.date`.
-/

/-- A calendar date, as Python's `datetime.date`: year, month (1-12), day (1-31).
Python compares dates lexicographically by (year, month, day). -/
structure PyDate where
  y : Nat
  m : Nat
  d : Nat
deriving DecidableEq, Repr

/-- Gregorian leap year test, as Python's `calendar.isleap`. -/
def isLeap (y : Nat) : Bool :=
  y % 4 == 0 && (y % 100 != 0 || y % 400 == 0)

/-- Number of days in a month of a given year (Gregorian calendar). -/
def daysInMonth (y m : Nat) : Nat :=
  if m = 2 then (if isLeap y then 29 else 28)
  else if m = 4 ∨ m = 6 ∨ m = 9 ∨ m = 11 then 30
  else 31

/-- Strict order on dates: Python's `date < date` (lexicographic on y, m, d). -/
def PyDate.Lt (a b : PyDate) : Prop :=
  a.y < b.y ∨ (a.y = b.y ∧ (a.m < b.m ∨ (a.m = b.m ∧ a.d < b.d)))

/-- Non-strict order on dates: Python's `date <= date`. -/
def PyDate.Le (a b : PyDate) : Prop :=
  PyDate.Lt a b ∨ a = b

instance (a b : PyDate) : Decidable (PyDate.Lt a b) := by
  unfold PyDate.Lt; exact inferInstance

instance (a b : PyDate) : Decidable (PyDate.Le a b) := by
  unfold PyDate.Le; exact inferInstance

/-- A date is valid when it denotes a real calendar day; every Python
`datetime.date` value satisfies this (the constructor enforces it). -/
def PyDate.Valid (a : PyDate) : Prop :=
  1 ≤ a.m ∧ a.m ≤ 12 ∧ 1 ≤ a.d ∧ a.d ≤ daysInMonth a.y a.m

instance (a : PyDate) : Decidable (PyDate.Valid a) := by
  unfold PyDate.Valid; exact inferInstance

/-- The day after a date (successor in the calendar). -/
def nextDay (a : PyDate) : PyDate :=
  if a.d < daysInMonth a.y a.m then ⟨a.y, a.m, a.d + 1⟩
  else if a.m < 12 then ⟨a.y, a.m + 1, 1⟩
  else ⟨a.y + 1, 1, 1⟩

/-- `date + timedelta(days=n)`: n-fold calendar successor. -/
def addDays : PyDate → Nat → PyDate
  | a, 0 => a
  | a, n + 1 => addDays (nextDay a) n

/-- `date + relativedelta(months=n)`: advance the month index by `n`,
carrying into the year, and clamp the day to the target month's last
valid day (dateutil's semantics). -/
def addMonths (a : PyDate) (n : Nat) : PyDate :=
  let t := (a.m - 1) + n
  let y := a.y + t / 12
  let m := t % 12 + 1
  ⟨y, m, min a.d (daysInMonth y m)⟩

/-- `date + relativedelta(years=n)`: advance the year by `n` and clamp
the day to the target month's last valid day (dateutil's semantics;
only Feb 29 can be clamped, to Feb 28). -/
def addYears (a : PyDate) (n : Nat) : PyDate :=
  ⟨a.y + n, a.m, min a.d (daysInMonth (a.y + n) a.m)⟩

/-- `RecurrenceType` enum from `app/models/recurring_config.py`. -/
inductive RecurrenceType where
  | daily
  | weekly
  | monthly
  | yearly
deriving DecidableEq, Repr

/-- `RecurringConfig` row (`app/models/recurring_config.py`), restricted to the
columns the scheduler reads and writes. -/
structure RecurringConfig where
  id : Nat
  user_id : Nat
  base_transaction_id : Nat
  period_length : Nat
  reoccurrence : RecurrenceType
  start_date : PyDate
  end_date : Option PyDate
  next_occurrence : PyDate
  is_active : Bool
deriving DecidableEq, Repr

/-- `RecurringConfig.calculate_next_occurrence`: dispatch on the recurrence
unit; `timedelta(days=p)`, `timedelta(weeks=p)` (= 7p days),
`relativedelta(months=p)`, `relativedelta(years=p)`. -/
def calculate_next_occurrence (c : RecurringConfig) : PyDate :=
  match c.reoccurrence with
  | .daily => addDays c.next_occurrence c.period_length
  | .weekly => addDays c.next_occurrence (7 * c.period_length)
  | .monthly => addMonths c.next_occurrence c.period_length
  | .yearly => addYears c.next_occurrence c.period_length

-- Order lemmas for dates.

theorem PyDate.lt_trans {a b c : PyDate} (h1 : PyDate.Lt a b) (h2 : PyDate.Lt b c) :
    PyDate.Lt a c := by
  unfold PyDate.Lt at *; omega

theorem PyDate.le_trans {a b c : PyDate} (h1 : PyDate.Le a b) (h2 : PyDate.Le b c) :
    PyDate.Le a c := by
  unfold PyDate.Le PyDate.Lt at *
  rcases a with ⟨ay, am, ad⟩
  rcases b with ⟨by1, bm, bd⟩
  rcases c with ⟨cy, cm, cd⟩
  simp only [PyDate.mk.injEq] at *
  omega

theorem PyDate.Lt.le {a b : PyDate} (h : PyDate.Lt a b) : PyDate.Le a b :=
  Or.inl h

theorem PyDate.le_refl (a : PyDate) : PyDate.Le a a := Or.inr rfl

theorem PyDate.lt_of_le_of_lt {a b c : PyDate} (h1 : PyDate.Le a b) (h2 : PyDate.Lt b c) :
    PyDate.Lt a c := by
  rcases h1 with h1 | rfl
  · exact PyDate.lt_trans h1 h2
  · exact h2

theorem nextDay_lt (a : PyDate) : PyDate.Lt a (nextDay a) := by
  unfold nextDay PyDate.Lt
  split
  · exact Or.inr ⟨rfl, Or.inr ⟨rfl, Nat.lt_succ_self _⟩⟩
  · split
    · exact Or.inr ⟨rfl, Or.inl (Nat.lt_succ_self _)⟩
    · exact Or.inl (Nat.lt_succ_self _)

theorem addDays_lt (a : PyDate) (n : Nat) (h : 1 ≤ n) : PyDate.Lt a (addDays a n) := by
  induction n generalizing a with
  | zero => omega
  | succ k ih =>
    show PyDate.Lt a (addDays (nextDay a) k)
    rcases Nat.eq_zero_or_pos k with hk | hk
    · subst hk; exact nextDay_lt a
    · exact PyDate.lt_trans (nextDay_lt a) (ih (nextDay a) hk)

theorem addMonths_lt (a : PyDate) (n : Nat) (h : 1 ≤ n) : PyDate.Lt a (addMonths a n) := by
  unfold addMonths PyDate.Lt
  simp only
  omega

theorem addYears_lt (a : PyDate) (n : Nat) (h : 1 ≤ n) : PyDate.Lt a (addYears a n) := by
  unfold addYears PyDate.Lt
  simp only
  omega

/-- The calculator strictly advances the cursor whenever `period_length ≥ 1`. -/
theorem calculate_next_occurrence_lt (c : RecurringConfig) (h : 1 ≤ c.period_length) :
    PyDate.Lt c.next_occurrence (calculate_next_occurrence c) := by
  unfold calculate_next_occurrence
  cases hr : c.reoccurrence
  · exact addDays_lt _ _ h
  · exact addDays_lt _ _ (by omega)
  · exact addMonths_lt _ _ h
  · exact addYears_lt _ _ h

example : calculate_next_occurrence
    ⟨0, 0, 0, 1, .monthly, ⟨2024,1,31⟩, none, ⟨2024,1,31⟩, true⟩ = ⟨2024,2,29⟩ := by decide

example : calculate_next_occurrence
    ⟨0, 0, 0, 1, .monthly, ⟨2023,1,31⟩, none, ⟨2023,1,31⟩, true⟩ = ⟨2023,2,28⟩ := by decide

example : calculate_next_occurrence
    ⟨0, 0, 0, 1, .yearly, ⟨2024,2,29⟩, none, ⟨2024,2,29⟩, true⟩ = ⟨2025,2,28⟩ := by decide

/-! ## Ledger: wallets, transactions and the balance mutation guard -/

/-- `TransactionType` enum from `app/models/transaction.py`. -/
inductive TransactionType where
  | regular
  | transfer
  | recurring_instance
deriving DecidableEq, Repr

/-- `Wallet` row (`app/models/wallet.py`), restricted to the columns the
ledger guard reads and writes. Balances are `Numeric(15, 2)` / `Decimal`,
modelled exactly as rationals. -/
structure Wallet where
  id : Nat
  user_id : Nat
  balance : ℚ
deriving DecidableEq, Repr

/-- `Transaction` row (`app/models/transaction.py`), restricted to the fields
the recurring materializer reads from the base transaction and writes into a
new instance. -/
structure Txn where
  id : Nat
  user_id : Nat
  wallet_id : Nat
  category_id : Option Nat
  payment_method_id : Option Nat
  amount : ℚ
  title : String
  notes : Option String
  date : PyDate
  is_income : Bool
  type : TransactionType
  recurring_config_id : Option Nat
  deleted_at : Option Nat
deriving DecidableEq, Repr

/-- The slice of database state the materializer and the ledger guard touch:
wallet rows, transaction rows, and a supply of fresh ids standing for
`uuid.uuid4()`. -/
structure LedgerDb where
  wallets : List Wallet
  transactions : List Txn
  nextId : Nat
deriving DecidableEq, Repr

/-- Mutate the first list element matching an id, as SQLAlchemy's
`query(...).filter(id == wid).first()` followed by attribute assignment;
no match leaves the list unchanged. -/
def updateFirstWallet : List Wallet → Nat → (Wallet → Wallet) → List Wallet
  | [], _, _ => []
  | w :: ws, wid, f => if w.id = wid then f w :: ws else w :: updateFirstWallet ws wid f

/-- `update_wallet_balance` from `app/api/v1/transactions.py`: look the wallet
up by id; if found, add the amount for income (subtract for expense), or the
exact opposite when `reverse` is set; if not found, do nothing. -/
def update_wallet_balance (ws : List Wallet) (wallet_id : Nat) (amount : ℚ)
    (is_income : Bool) (reverse : Bool) : List Wallet :=
  updateFirstWallet ws wallet_id (fun w =>
    if reverse then
      if is_income then { w with balance := w.balance - amount }
      else { w with balance := w.balance + amount }
    else
      if is_income then { w with balance := w.balance + amount }
      else { w with balance := w.balance - amount })

/-! ## The recurring materializer (`process_single_recurring`) -/

/-- The base-transaction lookup inside the materializer loop:
`db.query(Transaction).filter(Transaction.id == config.base_transaction_id,
Transaction.deleted_at.is_(None)).first()`. -/
def findBase (db : LedgerDb) (c : RecurringConfig) : Option Txn :=
  db.transactions.find? (fun t => t.id = c.base_transaction_id ∧ t.deleted_at = none)

/-- The new `Transaction(...)` instance built in the materializer loop body:
a copy of the base transaction's financial fields, dated at the cursor,
tagged as a recurring instance and linked back to the schedule. -/
def mkInstance (txid : Nat) (c : RecurringConfig) (base : Txn) : Txn :=
  { id := txid
    user_id := c.user_id
    wallet_id := base.wallet_id
    category_id := base.category_id
    payment_method_id := base.payment_method_id
    amount := base.amount
    title := base.title
    notes := base.notes
    date := c.next_occurrence
    is_income := base.is_income
    type := .recurring_instance
    recurring_config_id := some c.id
    deleted_at := none }

/-- Result of one materializer run: the mutated schedule, the mutated
database slice, and the `created_ids` list the endpoint returns. -/
structure ProcResult where
  config : RecurringConfig
  db : LedgerDb
  created : List Nat
deriving DecidableEq, Repr

/-- The end check opening the loop body: `if config.end_date and
config.next_occurrence > config.end_date` — Python truthiness makes the
condition false when `end_date` is `None`. -/
def pastEnd (c : RecurringConfig) : Bool :=
  match c.end_date with
  | some e => decide (PyDate.Lt e c.next_occurrence)
  | none => false

/-- The `while` loop of `process_single_recurring`, fuel-indexed: the Python
loop terminates because the cursor strictly advances each iteration
(`calculate_next_occurrence_lt`), so every theorem below is stated for all, or
all sufficiently large, fuel values. Each iteration checks the end date
(deactivating past-the-end schedules), looks the base transaction up
(deactivating when it is missing or soft-deleted), and otherwise clones an
instance dated at the cursor and advances the cursor. -/
def processAux : Nat → PyDate → LedgerDb → RecurringConfig → List Nat → ProcResult
  | 0, _, db, c, acc => ⟨c, db, acc⟩
  | fuel + 1, today, db, c, acc =>
    if c.is_active = true ∧ PyDate.Le c.next_occurrence today then
      if pastEnd c then ⟨{ c with is_active := false }, db, acc⟩
      else
        match findBase db c with
        | none => ⟨{ c with is_active := false }, db, acc⟩
        | some base =>
          let tx := mkInstance db.nextId c base
          processAux fuel today
            { db with transactions := db.transactions ++ [tx], nextId := db.nextId + 1 }
            { c with next_occurrence := calculate_next_occurrence c }
            (acc ++ [tx.id])
    else ⟨c, db, acc⟩

/-- `process_single_recurring(db, config)` with `today = date.today()` passed
explicitly and the loop given `fuel` iterations. -/
def process_single_recurring (fuel : Nat) (today : PyDate) (db : LedgerDb)
    (c : RecurringConfig) : ProcResult :=
  processAux fuel today db c []


/-! ## Lemmas about the ledger guard -/

theorem updateFirstWallet_cancel (ws : List Wallet) (wid : Nat) (f g : Wallet → Wallet)
    (hf : ∀ w, (f w).id = w.id) (hfg : ∀ w, g (f w) = w) :
    updateFirstWallet (updateFirstWallet ws wid f) wid g = ws := by
  induction ws with
  | nil => rfl
  | cons w ws ih =>
    by_cases h : w.id = wid
    · simp [updateFirstWallet, h, hf w, hfg w]
    · simp [updateFirstWallet, h, ih]

/-- Claim C7 — the ledger mutation guard is an exact involution: applying a
transaction's effect and then reversing it (or reversing first and applying
after) returns every wallet balance exactly to its prior value, for all
rational (decimal-exact) amounts; in particular three applications of 0.10
followed by three reversals restore the original balance exactly. -/
theorem apply_reverse_restores_balance_exactly :
    (∀ (ws : List Wallet) (wid : Nat) (a : ℚ) (inc : Bool),
      update_wallet_balance (update_wallet_balance ws wid a inc false) wid a inc true = ws ∧
      update_wallet_balance (update_wallet_balance ws wid a inc true) wid a inc false = ws) ∧
    (update_wallet_balance (update_wallet_balance (update_wallet_balance
      (update_wallet_balance (update_wallet_balance (update_wallet_balance
        [⟨1, 1, (37 : ℚ)/100⟩]
        1 ((10 : ℚ)/100) true false) 1 ((10 : ℚ)/100) true false) 1 ((10 : ℚ)/100) true false)
      1 ((10 : ℚ)/100) true true) 1 ((10 : ℚ)/100) true true) 1 ((10 : ℚ)/100) true true
      = [⟨1, 1, (37 : ℚ)/100⟩]) := by
  have key : ∀ (ws : List Wallet) (wid : Nat) (a : ℚ) (inc : Bool),
      update_wallet_balance (update_wallet_balance ws wid a inc false) wid a inc true = ws ∧
      update_wallet_balance (update_wallet_balance ws wid a inc true) wid a inc false = ws := by
    intro ws wid a inc
    constructor
    · apply updateFirstWallet_cancel
      · intro w; cases inc <;> simp
      · intro w; rcases w with ⟨i, u, b⟩; cases inc <;> simp
    · apply updateFirstWallet_cancel
      · intro w; cases inc <;> simp
      · intro w; rcases w with ⟨i, u, b⟩; cases inc <;> simp
  refine ⟨key, ?_⟩
  rw [(key _ _ _ _).1, (key _ _ _ _).1, (key _ _ _ _).1]

/-! ## The materializer never touches wallets -/

theorem processAux_wallets (fuel : Nat) :
    ∀ today db c acc, (processAux fuel today db c acc).db.wallets = db.wallets := by
  induction fuel with
  | zero => intro today db c acc; rfl
  | succ k ih =>
    intro today db c acc
    unfold processAux
    split
    · split
      · rfl
      · split
        · rfl
        · exact ih ..
    · rfl

/-- Claim C1 — contrary to the specification, the materializer never invokes
the ledger mutation guard: `process_single_recurring` leaves every wallet
balance unchanged in every run, even when it emits instances. Concretely, an
active monthly schedule over an income base transaction of amount 100 emits
one instance while the owning wallet's balance stays at 500. -/
theorem materializer_never_updates_wallet_balance :
    (∀ fuel today db c, (process_single_recurring fuel today db c).db.wallets = db.wallets) ∧
    (let db0 : LedgerDb :=
      ⟨[⟨7, 1, 500⟩],
       [⟨10, 1, 7, none, none, 100, "salary", none, ⟨2024,1,1⟩, true, .regular, none, none⟩],
       100⟩
     let c0 : RecurringConfig := ⟨5, 1, 10, 1, .monthly, ⟨2024,1,1⟩, none, ⟨2024,1,1⟩, true⟩
     let r := process_single_recurring 9 ⟨2024,1,15⟩ db0 c0
     r.created = [100] ∧ r.db.wallets = [⟨7, 1, 500⟩]) := by
  constructor
  · intro fuel today db c
    exact processAux_wallets fuel today db c []
  · decide

/-! ## End-date boundary behavior of the materializer -/

theorem processAux_pastEnd (fuel : Nat) (today : PyDate) (db : LedgerDb) (c : RecurringConfig)
    (acc : List Nat) (h : pastEnd c = true) :
    (processAux fuel today db c acc).created = acc ∧
    (processAux fuel today db c acc).db = db ∧
    (processAux fuel today db c acc).config.next_occurrence = c.next_occurrence := by
  cases fuel with
  | zero => exact ⟨rfl, rfl, rfl⟩
  | succ k =>
    unfold processAux
    split
    · simp [h]
    · exact ⟨rfl, rfl, rfl⟩

theorem pastEnd_true (c : RecurringConfig) (e : PyDate) (hend : c.end_date = some e)
    (hlt : PyDate.Lt e c.next_occurrence) : pastEnd c = true := by
  unfold pastEnd
  rw [hend]
  simpa using hlt

theorem pastEnd_false (c : RecurringConfig) (e : PyDate) (hend : c.end_date = some e)
    (hge : ¬ PyDate.Lt e c.next_occurrence) : pastEnd c = false := by
  unfold pastEnd
  rw [hend]
  simpa using hge

/-- Claim C3 — end-date boundary: for an active schedule with an end date and a
due cursor (`next_occurrence ≤ today`, base transaction present,
`period_length ≥ 1`): when the cursor exactly equals the end date the run still
emits one final instance dated at that cursor (and nothing else); when the
cursor is strictly past the end date the run emits nothing, deactivates the
schedule, and stops with the database untouched. -/
theorem end_date_boundary (fuel : Nat) (today : PyDate) (db : LedgerDb)
    (c : RecurringConfig) (e : PyDate) (base : Txn)
    (hfuel : 1 ≤ fuel) (hact : c.is_active = true) (hend : c.end_date = some e)
    (hdue : PyDate.Le c.next_occurrence today) (hper : 1 ≤ c.period_length)
    (hbase : findBase db c = some base) :
    (c.next_occurrence = e →
      (process_single_recurring fuel today db c).created = [db.nextId] ∧
      (process_single_recurring fuel today db c).db.transactions
        = db.transactions ++ [mkInstance db.nextId c base] ∧
      (mkInstance db.nextId c base).date = e) ∧
    (PyDate.Lt e c.next_occurrence →
      (process_single_recurring fuel today db c).created = [] ∧
      (process_single_recurring fuel today db c).config = { c with is_active := false } ∧
      (process_single_recurring fuel today db c).db = db) := by
  obtain ⟨k, rfl⟩ : ∃ k, fuel = k + 1 := ⟨fuel - 1, by omega⟩
  constructor
  · intro heq
    have hirr : ¬ PyDate.Lt e c.next_occurrence := by
      rw [heq]; unfold PyDate.Lt; omega
    have hnp : pastEnd c = false := pastEnd_false c e hend hirr
    have hlt2 : PyDate.Lt e (calculate_next_occurrence c) := by
      rw [← heq]; exact calculate_next_occurrence_lt c hper
    unfold process_single_recurring processAux
    rw [if_pos ⟨hact, hdue⟩]
    simp only [hnp, Bool.false_eq_true, if_false, hbase]
    have hpast2 : pastEnd { c with next_occurrence := calculate_next_occurrence c } = true :=
      pastEnd_true _ e hend hlt2
    have h2 := processAux_pastEnd k today
      (LedgerDb.mk db.wallets (db.transactions ++ [mkInstance db.nextId c base]) (db.nextId + 1))
      { c with next_occurrence := calculate_next_occurrence c }
      [(mkInstance db.nextId c base).id] hpast2
    simp only [List.nil_append]
    exact ⟨h2.1, by rw [h2.2.1], heq⟩
  · intro hlt
    have hp : pastEnd c = true := pastEnd_true c e hend hlt
    unfold process_single_recurring processAux
    rw [if_pos ⟨hact, hdue⟩]
    simp [hp]

/-- Sample base transaction for concrete runs. -/
def sampleBase : Txn :=
  ⟨10, 1, 7, none, none, 100, "rent", none, ⟨2024,1,1⟩, false, .regular, none, none⟩

/-- Sample database slice for concrete runs. -/
def sampleDb : LedgerDb := ⟨[⟨7, 1, 500⟩], [sampleBase], 50⟩

/-- Schedule whose cursor sits exactly on its end date. -/
def cfgEndEq : RecurringConfig :=
  ⟨5, 1, 10, 1, .daily, ⟨2024,1,1⟩, some ⟨2024,1,4⟩, ⟨2024,1,4⟩, true⟩

/-- Schedule whose cursor is strictly past its end date. -/
def cfgPastEnd : RecurringConfig :=
  ⟨5, 1, 10, 1, .daily, ⟨2024,1,1⟩, some ⟨2024,1,4⟩, ⟨2024,1,6⟩, true⟩

/-- Witness for `end_date_boundary` at concrete inputs: a cursor equal to the
end date yields exactly one instance; a cursor one past it yields none. -/
theorem end_date_boundary_witness :
    (process_single_recurring 3 ⟨2024,1,10⟩ sampleDb cfgEndEq).created = [50] ∧
    (process_single_recurring 3 ⟨2024,1,10⟩ sampleDb cfgPastEnd).created = [] :=
  ⟨((end_date_boundary 3 ⟨2024,1,10⟩ sampleDb cfgEndEq ⟨2024,1,4⟩ sampleBase
      (by decide) rfl rfl (by decide) (by decide) rfl).1 rfl).1,
   ((end_date_boundary 3 ⟨2024,1,10⟩ sampleDb cfgPastEnd ⟨2024,1,4⟩ sampleBase
      (by decide) rfl rfl (by decide) (by decide) rfl).2 (by decide)).1⟩

/-! ## Schedule lifecycle: creation, user edits, reachable states -/

/-- `RecurringConfigCreate` payload (`app/schemas/recurring.py`); the schema
validates `period_length ≥ 1` (`Field(ge=1)`). -/
structure RecurringConfigCreate where
  base_transaction_id : Nat
  period_length : Nat
  reoccurrence : RecurrenceType
  start_date : PyDate
  end_date : Option PyDate
deriving DecidableEq, Repr

/-- The `RecurringConfig(...)` constructed by `create_recurring_config`
(`app/api/v1/recurring.py`): the cursor is initialized to `start_date` and
`is_active` takes its column default `True`. -/
def create_recurring_config (cid u : Nat) (cd : RecurringConfigCreate) : RecurringConfig :=
  { id := cid
    user_id := u
    base_transaction_id := cd.base_transaction_id
    period_length := cd.period_length
    reoccurrence := cd.reoccurrence
    start_date := cd.start_date
    end_date := cd.end_date
    next_occurrence := cd.start_date
    is_active := true }

/-- `RecurringConfigUpdate` payload (`app/schemas/recurring.py`) under
`model_dump(exclude_unset=True)`: each field is either absent (`none`) or
present; a present `end_date` may itself be null. `start_date` and
`next_occurrence` are not updatable fields. -/
structure RecurringConfigUpdate where
  period_length : Option Nat
  reoccurrence : Option RecurrenceType
  end_date : Option (Option PyDate)
  is_active : Option Bool
deriving DecidableEq, Repr

/-- The setattr loop of `update_recurring_config` over the present fields. -/
def apply_recurring_update (c : RecurringConfig) (upd : RecurringConfigUpdate) :
    RecurringConfig :=
  { c with
    period_length := upd.period_length.getD c.period_length
    reoccurrence := upd.reoccurrence.getD c.reoccurrence
    end_date := upd.end_date.getD c.end_date
    is_active := upd.is_active.getD c.is_active }

/-- Schedule states reachable through schedule creation, user edits via the
update endpoint, and materializer runs (the operations named by the invariant
under scrutiny). The schema constraints `period_length ≥ 1` appear as
hypotheses on the create and update steps. -/
inductive ReachableConfig : RecurringConfig → Prop
  | created (cid u : Nat) (cd : RecurringConfigCreate) (hper : 1 ≤ cd.period_length) :
      ReachableConfig (create_recurring_config cid u cd)
  | updated (c : RecurringConfig) (upd : RecurringConfigUpdate)
      (hc : ReachableConfig c) (hper : ∀ p, upd.period_length = some p → 1 ≤ p) :
      ReachableConfig (apply_recurring_update c upd)
  | materialized (c : RecurringConfig) (fuel : Nat) (today : PyDate) (db : LedgerDb)
      (hc : ReachableConfig c) :
      ReachableConfig (process_single_recurring fuel today db c).config

theorem processAux_preserves (fuel : Nat) :
    ∀ today db c acc,
      (processAux fuel today db c acc).config.start_date = c.start_date ∧
      (processAux fuel today db c acc).config.period_length = c.period_length := by
  induction fuel with
  | zero => intro today db c acc; exact ⟨rfl, rfl⟩
  | succ k ih =>
    intro today db c acc
    unfold processAux
    split
    · split
      · exact ⟨rfl, rfl⟩
      · split
        · exact ⟨rfl, rfl⟩
        · exact ih ..
    · exact ⟨rfl, rfl⟩

theorem processAux_next_le (fuel : Nat) :
    ∀ today db c acc, 1 ≤ c.period_length →
      PyDate.Le c.next_occurrence (processAux fuel today db c acc).config.next_occurrence := by
  induction fuel with
  | zero => intro today db c acc _; exact PyDate.le_refl _
  | succ k ih =>
    intro today db c acc hper
    unfold processAux
    split
    · split
      · exact PyDate.le_refl _
      · split
        · exact PyDate.le_refl _
        · exact PyDate.le_trans (calculate_next_occurrence_lt c hper).le
            (ih today _ { c with next_occurrence := calculate_next_occurrence c } _ hper)
    · exact PyDate.le_refl _

theorem reachable_inv_aux (c : RecurringConfig) (hc : ReachableConfig c) :
    1 ≤ c.period_length ∧ PyDate.Le c.start_date c.next_occurrence := by
  induction hc with
  | created cid u cd hper => exact ⟨hper, PyDate.le_refl _⟩
  | updated c upd hc hper ih =>
    constructor
    · cases hu : upd.period_length with
      | none => simpa [apply_recurring_update, hu] using ih.1
      | some p => simpa [apply_recurring_update, hu] using hper p hu
    · simpa [apply_recurring_update] using ih.2
  | materialized c fuel today db hc ih =>
    have hp := processAux_preserves fuel today db c []
    have hn := processAux_next_le fuel today db c [] ih.1
    exact ⟨hp.2 ▸ ih.1, hp.1 ▸ PyDate.le_trans ih.2 hn⟩

/-- Claim C9 (amended) — in every state reachable through creation, update
endpoint edits and materializer runs, `next_occurrence ≥ start_date` holds;
and a materializer run that sees a cursor already strictly past the end date
never advances it further and creates nothing (deactivating the schedule when
the cursor is due). However, a run can leave an *active* schedule with its
cursor strictly past the end date (see the counterexample), so "once advanced
past end_date the schedule becomes inactive" does not hold as an immediate
invariant; the deactivation only happens on a later run when that past-end
cursor becomes due, and the update endpoint can also reactivate a schedule. -/
theorem reachable_invariant :
    (∀ c, ReachableConfig c → PyDate.Le c.start_date c.next_occurrence) ∧
    (∀ (fuel : Nat) (today : PyDate) (db : LedgerDb) (c : RecurringConfig) (e : PyDate),
      c.end_date = some e → PyDate.Lt e c.next_occurrence →
      (process_single_recurring fuel today db c).created = [] ∧
      (process_single_recurring fuel today db c).config.next_occurrence
        = c.next_occurrence) := by
  constructor
  · intro c hc
    exact (reachable_inv_aux c hc).2
  · intro fuel today db c e hend hlt
    have hp := processAux_pastEnd fuel today db c [] (pastEnd_true c e hend hlt)
    exact ⟨hp.1, hp.2.2⟩

/-- Creation payload used in the concrete runs below: daily, period 5,
start 2024-01-01, end 2024-01-05. -/
def ctrCreate : RecurringConfigCreate := ⟨10, 5, .daily, ⟨2024,1,1⟩, some ⟨2024,1,5⟩⟩

/-- The schedule created from `ctrCreate`. -/
def ctrCfg : RecurringConfig := create_recurring_config 5 1 ctrCreate

/-- Counterexample to claim C9 as stated: a reachable state (created, then one
materializer run with today = 2024-01-03) whose cursor 2024-01-06 is strictly
past its end date 2024-01-05 while the schedule is still active — the schedule
did not "become inactive" when the cursor advanced past the end date. -/
theorem once_past_end_still_active_counterexample :
    ReachableConfig (process_single_recurring 9 ⟨2024,1,3⟩ sampleDb ctrCfg).config ∧
    (process_single_recurring 9 ⟨2024,1,3⟩ sampleDb ctrCfg).config.is_active = true ∧
    (process_single_recurring 9 ⟨2024,1,3⟩ sampleDb ctrCfg).config.end_date = some ⟨2024,1,5⟩ ∧
    PyDate.Lt ⟨2024,1,5⟩
      (process_single_recurring 9 ⟨2024,1,3⟩ sampleDb ctrCfg).config.next_occurrence :=
  ⟨.materialized ctrCfg 9 ⟨2024,1,3⟩ sampleDb (.created 5 1 ctrCreate (by decide)),
   by decide, by decide, by decide⟩

/-- Witness for `reachable_invariant` at concrete inputs. -/
theorem reachable_invariant_witness :
    PyDate.Le (create_recurring_config 5 1 ctrCreate).start_date
      (create_recurring_config 5 1 ctrCreate).next_occurrence ∧
    (process_single_recurring 3 ⟨2024,2,1⟩ sampleDb cfgPastEnd).created = [] :=
  ⟨reachable_invariant.1 (create_recurring_config 5 1 ctrCreate)
      (.created 5 1 ctrCreate (by decide)),
   (reachable_invariant.2 3 ⟨2024,2,1⟩ sampleDb cfgPastEnd ⟨2024,1,4⟩ rfl (by decide)).1⟩

/-! ## Characterization of the occurrence calculator -/

theorem min_day_clamp (ay am ad n : Nat) (h4 : ad ≤ daysInMonth ay am) :
    min ad (daysInMonth (ay + n) am) =
      if am = 2 ∧ ad = 29 ∧ isLeap (ay + n) = false then 28 else ad := by
  by_cases hm : am = 2
  · subst hm
    have h29 : ad ≤ 29 := by
      by_cases hL : isLeap ay = true
      · have : ad ≤ 29 := by simpa [daysInMonth, hL] using h4
        omega
      · have : ad ≤ 28 := by simpa [daysInMonth, hL] using h4
        omega
    by_cases hL2 : isLeap (ay + n) = true
    · have hd2 : daysInMonth (ay + n) 2 = 29 := by simp [daysInMonth, hL2]
      rw [hd2, if_neg (by simp [hL2])]
      exact Nat.min_eq_left h29
    · have hd2 : daysInMonth (ay + n) 2 = 28 := by simp [daysInMonth, hL2]
      rw [hd2]
      by_cases hd : ad = 29
      · rw [if_pos ⟨rfl, hd, by simpa using hL2⟩]
        subst hd
        exact Nat.min_eq_right (by omega)
      · rw [if_neg (by simp [hd])]
        exact Nat.min_eq_left (by omega)
  · have hsame : daysInMonth (ay + n) am = daysInMonth ay am := by
      simp [daysInMonth, hm]
    rw [hsame, if_neg (by simp [hm])]
    exact Nat.min_eq_left h4

theorem addYears_day_clamp (a : PyDate) (n : Nat) (hv : PyDate.Valid a) :
    (addYears a n).d =
      if a.m = 2 ∧ a.d = 29 ∧ isLeap (a.y + n) = false then 28 else a.d :=
  min_day_clamp a.y a.m a.d n hv.2.2.2

/-- Claim C2 — unit semantics of `calculate_next_occurrence` on a valid cursor
with `period_length ≥ 1`: daily advances by `period_length` days, weekly by
`7 * period_length` days, monthly by `period_length` calendar months (month
index shifted exactly by `period_length`, day clamped to the target month's
last valid day), yearly by `period_length` calendar years (day unchanged
except Feb 29 clamped to Feb 28 in non-leap target years); including the three
named clamping examples. -/
theorem calculator_unit_semantics (c : RecurringConfig)
    (hper : 1 ≤ c.period_length) (hv : PyDate.Valid c.next_occurrence) :
    (c.reoccurrence = .daily →
      calculate_next_occurrence c = addDays c.next_occurrence c.period_length) ∧
    (c.reoccurrence = .weekly →
      calculate_next_occurrence c = addDays c.next_occurrence (7 * c.period_length)) ∧
    (c.reoccurrence = .monthly →
      (calculate_next_occurrence c).y * 12 + ((calculate_next_occurrence c).m - 1)
          = c.next_occurrence.y * 12 + (c.next_occurrence.m - 1) + c.period_length ∧
      1 ≤ (calculate_next_occurrence c).m ∧ (calculate_next_occurrence c).m ≤ 12 ∧
      (calculate_next_occurrence c).d
          = min c.next_occurrence.d
              (daysInMonth (calculate_next_occurrence c).y (calculate_next_occurrence c).m)) ∧
    (c.reoccurrence = .yearly →
      (calculate_next_occurrence c).y = c.next_occurrence.y + c.period_length ∧
      (calculate_next_occurrence c).m = c.next_occurrence.m ∧
      (calculate_next_occurrence c).d
          = if c.next_occurrence.m = 2 ∧ c.next_occurrence.d = 29
               ∧ isLeap (c.next_occurrence.y + c.period_length) = false
            then 28 else c.next_occurrence.d) ∧
    calculate_next_occurrence
      ⟨0, 0, 0, 1, .monthly, ⟨2024,1,31⟩, none, ⟨2024,1,31⟩, true⟩ = ⟨2024,2,29⟩ ∧
    calculate_next_occurrence
      ⟨0, 0, 0, 1, .monthly, ⟨2023,1,31⟩, none, ⟨2023,1,31⟩, true⟩ = ⟨2023,2,28⟩ ∧
    calculate_next_occurrence
      ⟨0, 0, 0, 1, .yearly, ⟨2024,2,29⟩, none, ⟨2024,2,29⟩, true⟩ = ⟨2025,2,28⟩ := by
  refine ⟨?_, ?_, ?_, ?_, by decide, by decide, by decide⟩
  · intro h
    simp [calculate_next_occurrence, h]
  · intro h
    simp [calculate_next_occurrence, h]
  · intro h
    simp only [calculate_next_occurrence, h]
    unfold addMonths
    simp only
    refine ⟨by omega, by omega, by omega, by trivial⟩
  · intro h
    simp only [calculate_next_occurrence, h]
    exact ⟨rfl, rfl, addYears_day_clamp c.next_occurrence c.period_length hv⟩

/-- Witness for `calculator_unit_semantics` at a concrete daily schedule. -/
theorem calculator_unit_semantics_witness :
    1 ≤ cfgEndEq.period_length ∧ PyDate.Valid cfgEndEq.next_occurrence ∧
    (cfgEndEq.reoccurrence = .daily →
      calculate_next_occurrence cfgEndEq
        = addDays cfgEndEq.next_occurrence cfgEndEq.period_length) :=
  ⟨by decide, by decide, (calculator_unit_semantics cfgEndEq (by decide) (by decide)).1⟩

/-- Claim C8 — on every valid input (valid cursor date, positive period), the
calculator moves the date strictly forward; and it is deterministic: its
output depends only on the cursor, the period length and the recurrence unit. -/
theorem calculator_forward_deterministic :
    (∀ c : RecurringConfig, 1 ≤ c.period_length → PyDate.Valid c.next_occurrence →
      PyDate.Lt c.next_occurrence (calculate_next_occurrence c)) ∧
    (∀ c c' : RecurringConfig,
      c.next_occurrence = c'.next_occurrence → c.period_length = c'.period_length →
      c.reoccurrence = c'.reoccurrence →
      calculate_next_occurrence c = calculate_next_occurrence c') := by
  constructor
  · intro c hper _
    exact calculate_next_occurrence_lt c hper
  · intro c c' h1 h2 h3
    unfold calculate_next_occurrence
    rw [h1, h2, h3]

/-- Witness for `calculator_forward_deterministic` at a concrete schedule. -/
theorem calculator_forward_deterministic_witness :
    1 ≤ ctrCfg.period_length ∧ PyDate.Valid ctrCfg.next_occurrence ∧
    PyDate.Lt ctrCfg.next_occurrence (calculate_next_occurrence ctrCfg) :=
  ⟨by decide, by decide, calculator_forward_deterministic.1 ctrCfg (by decide) (by decide)⟩

/-! ## Sync protocol: data model

Rows handled by the sync endpoints are heterogeneous (eight different
tables), and the source manipulates them generically through dicts and
`getattr`/`setattr`/`hasattr`. We model a row the same way: as its
column-name/value map. A row "has" an attribute exactly when the key is
present in its map. -/

/-- A column value as it appears in a record or in a sync payload. -/
inductive Val where
  | vNone
  | vBool (b : Bool)
  | vInt (i : Int)
  | vNum (q : ℚ)
  | vStr (s : String)
  | vDate (d : PyDate)
  | vDateTime (t : Nat)
  | vUuid (u : Nat)
deriving DecidableEq, Repr

/-- A generic table row: its column-name/value map. -/
structure SyncRow where
  attrs : List (String × Val)
deriving DecidableEq, Repr

/-- Value of a key in a field map (first occurrence), `none` when absent. -/
def getVal : List (String × Val) → String → Option Val
  | [], _ => none
  | kv :: rest, key => if kv.1 = key then some kv.2 else getVal rest key

/-- `hasattr`: the key is present in the map. -/
def hasKey (l : List (String × Val)) (key : String) : Bool :=
  (getVal l key).isSome

/-- Dict write `d[key] = v`: replace the value in place when the key exists,
append it otherwise. -/
def setKey : List (String × Val) → String → Val → List (String × Val)
  | [], k, v => [(k, v)]
  | kv :: rest, k, v => if kv.1 = k then (k, v) :: rest else kv :: setKey rest k v

/-- Dict `d.pop(key, None)`: drop the key from the map. -/
def removeKey : List (String × Val) → String → List (String × Val)
  | [], _ => []
  | kv :: rest, k => if kv.1 = k then removeKey rest k else kv :: removeKey rest k

/-- `SyncLog` row (`app/models/sync_log.py`). -/
structure SyncLog where
  user_id : Nat
  table_name : String
  last_server_version : Nat
  last_sync_at : Option Nat
deriving DecidableEq, Repr

/-- The database state the sync endpoints touch: sync-log rows, table rows
tagged with their table name, and a fresh-id supply standing for
`uuid.uuid4()`. -/
structure SyncDb where
  logs : List SyncLog
  rows : List (String × SyncRow)
  nextId : Nat
deriving DecidableEq, Repr

/-- Keys of `TABLE_MODELS` in `app/api/v1/sync.py`. -/
def validTables : List String :=
  ["categories", "wallets", "transactions", "budgets", "objectives",
   "recurring_configs", "associated_titles", "payment_methods"]

/-- `SyncChange` payload (`app/schemas/sync.py`). -/
structure SyncChange where
  id : Nat
  server_id : Option Nat
  action : String
  data : List (String × Val)
  client_timestamp : Nat
deriving DecidableEq, Repr

/-- `SyncConflict` response entry (`app/schemas/sync.py`). -/
structure SyncConflict where
  client_id : Nat
  server_id : Nat
  client_data : List (String × Val)
  server_data : List (String × Val)
  conflict_type : String
deriving DecidableEq, Repr

/-- `SyncPushResponse` (`app/schemas/sync.py`); `id_mapping` as pairs. -/
structure SyncPushResponse where
  server_version : Nat
  accepted : List Nat
  conflicts : List SyncConflict
  id_mapping : List (Nat × Nat)
deriving DecidableEq, Repr

/-- `SyncPullResponse` (`app/schemas/sync.py`). -/
structure SyncPullResponse where
  changes : List (List (String × Val))
  server_version : Nat
  has_more : Bool
deriving DecidableEq, Repr

/-! ## Sync protocol: operations -/

/-- The `db.query(SyncLog).filter(user_id, table_name).first()` lookup. -/
def findLog : List SyncLog → Nat → String → Option SyncLog
  | [], _, _ => none
  | l :: rest, u, t =>
    if l.user_id = u ∧ l.table_name = t then some l else findLog rest u t

/-- `get_or_create_sync_log`: lazily create a zero-version entry. -/
def get_or_create_sync_log (db : SyncDb) (u : Nat) (t : String) : SyncDb :=
  match findLog db.logs u t with
  | some _ => db
  | none => { db with logs := db.logs ++ [⟨u, t, 0, none⟩] }

/-- Version the sync log reports for a (user, table) pair; 0 when absent. -/
def versionOf (logs : List SyncLog) (u : Nat) (t : String) : Nat :=
  match findLog logs u t with
  | some l => l.last_server_version
  | none => 0

/-- The in-place `sync_log.last_server_version += 1; last_sync_at = now` on
the row `get_or_create_sync_log` returned (the first match). -/
def bumpLog : List SyncLog → Nat → String → Nat → List SyncLog
  | [], _, _, _ => []
  | l :: rest, u, t, now =>
    if l.user_id = u ∧ l.table_name = t then
      { l with last_server_version := l.last_server_version + 1,
               last_sync_at := some now } :: rest
    else l :: bumpLog rest u t now

/-- Row filter `model.id == sid, model.user_id == u` on a generic row. -/
def rowMatches (r : SyncRow) (u sid : Nat) : Bool :=
  decide (getVal r.attrs "id" = some (Val.vUuid sid)) &&
  decide (getVal r.attrs "user_id" = some (Val.vUuid u))

/-- `db.query(model).filter(model.id == sid, model.user_id == u).first()`. -/
def findTableRow : List (String × SyncRow) → String → Nat → Nat → Option SyncRow
  | [], _, _, _ => none
  | tr :: rest, t, u, sid =>
    if tr.1 = t ∧ rowMatches tr.2 u sid = true then some tr.2
    else findTableRow rest t u sid

/-- Mutate in place the row `findTableRow` found (the first match). -/
def updateFirstRow (f : SyncRow → SyncRow) :
    List (String × SyncRow) → String → Nat → Nat → List (String × SyncRow)
  | [], _, _, _ => []
  | tr :: rest, t, u, sid =>
    if tr.1 = t ∧ rowMatches tr.2 u sid = true then (tr.1, f tr.2) :: rest
    else tr :: updateFirstRow f rest t u sid

/-- `db.delete(record)` on the row `findTableRow` found. -/
def removeFirstRow : List (String × SyncRow) → String → Nat → Nat → List (String × SyncRow)
  | [], _, _, _ => []
  | tr :: rest, t, u, sid =>
    if tr.1 = t ∧ rowMatches tr.2 u sid = true then rest
    else tr :: removeFirstRow rest t u sid

/-- The create branch's record data: `{**change.data, "user_id": u, "id":
server_id}` followed by popping the client-only keys `sync_status` and
`local_id`. -/
def createRecordData (data : List (String × Val)) (u fresh : Nat) : List (String × Val) :=
  removeKey (removeKey
    (setKey (setKey data "user_id" (Val.vUuid u)) "id" (Val.vUuid fresh))
    "sync_status") "local_id"

/-- The update branch's stripping of `id`, `user_id` and `sync_status` from
the incoming field map before the setattr loop. -/
def stripIdentity (data : List (String × Val)) : List (String × Val) :=
  removeKey (removeKey (removeKey data "id") "user_id") "sync_status"

/-- The `for field, value in update_data.items(): if hasattr(record, field):
setattr(record, field, value)` loop. -/
def applyUpdateData (r : SyncRow) (data : List (String × Val)) : SyncRow :=
  data.foldl (fun r kv => if hasKey r.attrs kv.1 then ⟨setKey r.attrs kv.1 kv.2⟩ else r) r

/-- Result of processing one change of a push batch. -/
structure ChangeResult where
  db : SyncDb
  accepted : Option Nat
  conflict : Option SyncConflict
  mapping : Option (Nat × Nat)
deriving DecidableEq, Repr

/-- One iteration of the `for change in push_data.changes` loop of
`push_changes`. An unknown action string matches no branch and is skipped.
An `update` with a null `server_id` finds no row (`model.id == None` matches
nothing) and then fails to build the conflict entry (`SyncConflict.server_id`
is non-optional), a validation error the per-change `except` swallows — the
change is skipped without a conflict or an accepted entry. -/
def processChange (u : Nat) (t : String) (now : Nat) (db : SyncDb)
    (ch : SyncChange) : ChangeResult :=
  if ch.action = "create" then
    ⟨{ db with
        rows := db.rows ++ [(t, ⟨createRecordData ch.data u db.nextId⟩)]
        nextId := db.nextId + 1 },
     some ch.id, none, some (ch.id, db.nextId)⟩
  else if ch.action = "update" then
    match ch.server_id with
    | none => ⟨db, none, none, none⟩
    | some sid =>
      match findTableRow db.rows t u sid with
      | none => ⟨db, none, some ⟨ch.id, sid, ch.data, [], "delete_conflict"⟩, none⟩
      | some _ =>
        ⟨{ db with
            rows := updateFirstRow
                (fun r => applyUpdateData r (stripIdentity ch.data)) db.rows t u sid },
         some ch.id, none, none⟩
  else if ch.action = "delete" then
    match ch.server_id with
    | none => ⟨db, none, none, none⟩
    | some sid =>
      match findTableRow db.rows t u sid with
      | none => ⟨db, none, none, none⟩
      | some r =>
        if hasKey r.attrs "deleted_at" then
          ⟨{ db with
              rows := updateFirstRow
                  (fun r => ⟨setKey r.attrs "deleted_at" (Val.vDateTime now)⟩) db.rows t u sid },
           some ch.id, none, none⟩
        else
          ⟨{ db with rows := removeFirstRow db.rows t u sid }, some ch.id, none, none⟩
  else ⟨db, none, none, none⟩

/-- Accumulated state of the push loop. -/
structure PushState where
  db : SyncDb
  accepted : List Nat
  conflicts : List SyncConflict
  id_mapping : List (Nat × Nat)
deriving DecidableEq, Repr

/-- The `for change in push_data.changes` loop, in submission order. -/
def processChanges (u : Nat) (t : String) (now : Nat) :
    PushState → List SyncChange → PushState
  | st, [] => st
  | st, ch :: rest =>
    let r := processChange u t now st.db ch
    processChanges u t now
      ⟨r.db, st.accepted ++ r.accepted.toList, st.conflicts ++ r.conflict.toList,
       st.id_mapping ++ r.mapping.toList⟩ rest

/-- `push_changes`: reject unknown tables (the 400 leaves the state
unchanged), get-or-create the sync log, process the batch, then bump the
log's version by one and stamp `last_sync_at`. -/
def push_changes (db : SyncDb) (u : Nat) (t : String) (changes : List SyncChange)
    (now : Nat) : SyncDb × Option SyncPushResponse :=
  if t ∈ validTables then
    let db1 := get_or_create_sync_log db u t
    let st := processChanges u t now ⟨db1, [], [], []⟩ changes
    let logs2 := bumpLog st.db.logs u t now
    ({ st.db with logs := logs2 },
     some ⟨versionOf logs2 u t, st.accepted, st.conflicts, st.id_mapping⟩)
  else (db, none)

/-- `str(n)` padded to two digits, as in `date.isoformat`. -/
def pad2 (n : Nat) : String := if n < 10 then "0" ++ toString n else toString n

/-- `str(n)` padded to four digits, as in `date.isoformat`. -/
def pad4 (n : Nat) : String :=
  if n < 10 then "000" ++ toString n
  else if n < 100 then "00" ++ toString n
  else if n < 1000 then "0" ++ toString n
  else toString n

/-- `date.isoformat()`: `YYYY-MM-DD`. -/
def dateIso (d : PyDate) : String := pad4 d.y ++ "-" ++ pad2 d.m ++ "-" ++ pad2 d.d

/-- `datetime.isoformat()` on our abstract instants. -/
def datetimeIso (t : Nat) : String := toString t

/-- `str(uuid)` on our abstract identifiers. -/
def uuidStr (u : Nat) : String := toString u

/-- The per-value serialization of `pull_changes`: values with an `isoformat`
attribute (dates, datetimes) are rendered with it, `UUID` values with `str`,
everything else passes through. -/
def serializeVal : Val → Val
  | .vDate d => .vStr (dateIso d)
  | .vDateTime t => .vStr (datetimeIso t)
  | .vUuid u => .vStr (uuidStr u)
  | v => v

/-- Row serialization: every column, serialized. -/
def serializeRow (r : SyncRow) : List (String × Val) :=
  r.attrs.map (fun kv => (kv.1, serializeVal kv.2))

/-- `db.query(model).filter(model.user_id == u).all()` — the full per-user
table content, soft-deleted rows included (the query does not filter them). -/
def userRows (db : SyncDb) (t : String) (u : Nat) : List SyncRow :=
  (db.rows.filter
    (fun tr => decide (tr.1 = t) && decide (getVal tr.2.attrs "user_id" = some (Val.vUuid u)))).map
    (·.2)

/-- `pull_changes`: reject unknown tables, get-or-create the sync log, return
the full serialized snapshot of the user's rows with the current version and
`has_more = False`; `since_version` is accepted but never read. -/
def pull_changes (db : SyncDb) (u : Nat) (t : String) (since_version : Nat) :
    SyncDb × Option SyncPullResponse :=
  if t ∈ validTables then
    let db1 := get_or_create_sync_log db u t
    (db1, some ⟨(userRows db1 t u).map serializeRow, versionOf db1.logs u t, false⟩)
  else (db, none)

/-- The sync endpoints as state transformers (`get_sync_status` only reads). -/
inductive SyncOp where
  | push (u : Nat) (t : String) (changes : List SyncChange) (now : Nat)
  | pull (u : Nat) (t : String) (since_version : Nat)
  | status (u : Nat)

/-- State transition of one sync endpoint call. -/
def applySyncOp (db : SyncDb) : SyncOp → SyncDb
  | .push u t changes now => (push_changes db u t changes now).1
  | .pull u t s => (pull_changes db u t s).1
  | .status _ => db

/-! ## Sync lemmas: field maps -/

theorem getVal_setKey_self (l : List (String × Val)) (k : String) (v : Val) :
    getVal (setKey l k v) k = some v := by
  induction l with
  | nil => simp [setKey, getVal]
  | cons kv rest ih =>
    rcases kv with ⟨k1, v1⟩
    by_cases hk : k1 = k
    · subst hk; simp [setKey, getVal]
    · simp [setKey, getVal, hk, ih]

theorem getVal_setKey_ne (l : List (String × Val)) (k k' : String) (v : Val)
    (h : k' ≠ k) : getVal (setKey l k v) k' = getVal l k' := by
  induction l with
  | nil => simp [setKey, getVal, Ne.symm h]
  | cons kv rest ih =>
    rcases kv with ⟨k1, v1⟩
    by_cases hk : k1 = k
    · subst hk; simp [setKey, getVal, Ne.symm h, h]
    · by_cases hk' : k1 = k' <;> simp [setKey, getVal, hk, hk', ih, h]

theorem getVal_removeKey_ne (l : List (String × Val)) (k k' : String)
    (h : k' ≠ k) : getVal (removeKey l k) k' = getVal l k' := by
  induction l with
  | nil => rfl
  | cons kv rest ih =>
    rcases kv with ⟨k1, v1⟩
    by_cases hk : k1 = k
    · subst hk; simp [removeKey, getVal, Ne.symm h, ih]
    · by_cases hk' : k1 = k' <;> simp [removeKey, getVal, hk, hk', ih, h]

theorem mem_removeKey {l : List (String × Val)} {k : String} {kv : String × Val}
    (h : kv ∈ removeKey l k) : kv ∈ l ∧ kv.1 ≠ k := by
  induction l with
  | nil => simp [removeKey] at h
  | cons kv1 rest ih =>
    by_cases hk : kv1.1 = k
    · simp only [removeKey, hk, if_pos rfl] at h
      rcases ih (by simpa [hk] using h) with ⟨h1, h2⟩
      exact ⟨List.mem_cons_of_mem _ h1, h2⟩
    · simp only [removeKey, hk, if_false] at h
      rcases List.mem_cons.mp h with h1 | h1
      · subst h1; exact ⟨List.mem_cons_self _ _, hk⟩
      · rcases ih h1 with ⟨h2, h3⟩
        exact ⟨List.mem_cons_of_mem _ h2, h3⟩

theorem stripIdentity_keys {data : List (String × Val)} {kv : String × Val}
    (h : kv ∈ stripIdentity data) : kv.1 ≠ "id" ∧ kv.1 ≠ "user_id" := by
  unfold stripIdentity at h
  have h1 := mem_removeKey h
  have h2 := mem_removeKey h1.1
  have h3 := mem_removeKey h2.1
  exact ⟨h3.2, h2.2⟩

theorem applyUpdateData_getVal (data : List (String × Val)) (k : String) :
    ∀ r : SyncRow, (∀ kv ∈ data, kv.1 ≠ k) →
      getVal (applyUpdateData r data).attrs k = getVal r.attrs k := by
  induction data with
  | nil => intro r _; rfl
  | cons kv rest ih =>
    intro r hall
    show getVal (applyUpdateData
      (if hasKey r.attrs kv.1 then ⟨setKey r.attrs kv.1 kv.2⟩ else r) rest).attrs k = _
    rw [ih _ (fun x hx => hall x (List.mem_cons_of_mem kv hx))]
    split
    · exact getVal_setKey_ne r.attrs kv.1 k kv.2
        (Ne.symm (hall kv (List.mem_cons_self kv rest)))
    · rfl

/-! ## Sync lemmas: log versions -/

theorem versionOf_append_zero (logs : List SyncLog) (u : Nat) (t : String)
    (u' : Nat) (t' : String) :
    versionOf (logs ++ [⟨u, t, 0, none⟩]) u' t' = versionOf logs u' t' := by
  induction logs with
  | nil =>
    by_cases hm : u = u' ∧ t = t' <;> simp [versionOf, findLog, hm]
  | cons l rest ih =>
    by_cases hm : l.user_id = u' ∧ l.table_name = t'
    · simp [versionOf, findLog, hm]
    · simp only [List.cons_append, versionOf, findLog, hm, if_false]
      simpa [versionOf] using ih

theorem getOrCreate_versionOf (db : SyncDb) (u : Nat) (t : String)
    (u' : Nat) (t' : String) :
    versionOf (get_or_create_sync_log db u t).logs u' t' = versionOf db.logs u' t' := by
  unfold get_or_create_sync_log
  cases h : findLog db.logs u t
  · exact versionOf_append_zero db.logs u t u' t'
  · rfl

theorem getOrCreate_rows (db : SyncDb) (u : Nat) (t : String) :
    (get_or_create_sync_log db u t).rows = db.rows := by
  unfold get_or_create_sync_log
  cases h : findLog db.logs u t <;> rfl

theorem findLog_append (l1 l2 : List SyncLog) (u : Nat) (t : String) :
    findLog (l1 ++ l2) u t
      = match findLog l1 u t with
        | some x => some x
        | none => findLog l2 u t := by
  induction l1 with
  | nil => rfl
  | cons l rest ih =>
    simp only [List.cons_append, findLog]
    split
    · rfl
    · exact ih

theorem getOrCreate_exists (db : SyncDb) (u : Nat) (t : String) :
    (findLog (get_or_create_sync_log db u t).logs u t).isSome := by
  unfold get_or_create_sync_log
  cases h : findLog db.logs u t
  · rw [findLog_append, h]
    simp [findLog]
  · simp [h]

theorem bumpLog_versionOf_self (logs : List SyncLog) (u : Nat) (t : String) (now : Nat)
    (h : (findLog logs u t).isSome) :
    versionOf (bumpLog logs u t now) u t = versionOf logs u t + 1 := by
  induction logs with
  | nil => simp [findLog] at h
  | cons l rest ih =>
    by_cases hm : l.user_id = u ∧ l.table_name = t
    · simp [bumpLog, versionOf, findLog, hm]
    · have h' : (findLog rest u t).isSome := by
        simpa [findLog, hm] using h
      simp only [bumpLog, versionOf, findLog, hm, if_false]
      simpa [versionOf] using ih h'

theorem bumpLog_versionOf_ge (logs : List SyncLog) (u : Nat) (t : String) (now : Nat)
    (u' : Nat) (t' : String) :
    versionOf logs u' t' ≤ versionOf (bumpLog logs u t now) u' t' := by
  induction logs with
  | nil => exact Nat.le_refl _
  | cons l rest ih =>
    by_cases hm : l.user_id = u ∧ l.table_name = t
    · obtain ⟨hu, ht⟩ := hm
      by_cases hm' : l.user_id = u' ∧ l.table_name = t'
      · obtain ⟨hu', ht'⟩ := hm'
        have he : u = u' ∧ t = t' := ⟨hu ▸ hu', ht ▸ ht'⟩
        simp [bumpLog, versionOf, findLog, hu, ht, he]
      · have hne : ¬(u = u' ∧ t = t') := by
          rintro ⟨h1, h2⟩
          exact hm' ⟨hu.trans h1, ht.trans h2⟩
        simp [bumpLog, versionOf, findLog, hu, ht, hne]
    · by_cases hm' : l.user_id = u' ∧ l.table_name = t'
      · obtain ⟨hu', ht'⟩ := hm'
        have hne : ¬(u' = u ∧ t' = t) := by
          rintro ⟨h1, h2⟩
          exact hm ⟨hu'.trans h1, ht'.trans h2⟩
        simp [bumpLog, versionOf, findLog, hu', ht', hne]
      · simp only [bumpLog, versionOf, findLog, hm, hm', if_false]
        simpa [versionOf] using ih

theorem processChange_logs (u : Nat) (t : String) (now : Nat) (db : SyncDb)
    (ch : SyncChange) : (processChange u t now db ch).db.logs = db.logs := by
  unfold processChange
  repeat' split
  all_goals rfl

theorem processChanges_logs (u : Nat) (t : String) (now : Nat) :
    ∀ (changes : List SyncChange) (st : PushState),
      (processChanges u t now st changes).db.logs = st.db.logs := by
  intro changes
  induction changes with
  | nil => intro st; rfl
  | cons ch rest ih =>
    intro st
    show (processChanges u t now _ rest).db.logs = _
    rw [ih]
    exact processChange_logs u t now st.db ch

/-! ## Claim theorems for the sync protocol -/

/-- Claim C4 — on a valid table, a push batch bumps the table's sync-log
version by exactly one whatever the batch contains (0, 1 or 50 changes), both
in the stored log and in the reported `server_version`; and no sync endpoint
(push, pull, status) ever decrements or resets any (user, table) version. -/
theorem sync_version_bumps_exactly_one_per_push :
    (∀ (db : SyncDb) (u : Nat) (t : String) (changes : List SyncChange) (now : Nat),
      t ∈ validTables →
      versionOf (push_changes db u t changes now).1.logs u t = versionOf db.logs u t + 1 ∧
      ∀ resp, (push_changes db u t changes now).2 = some resp →
        resp.server_version = versionOf db.logs u t + 1) ∧
    (∀ (db : SyncDb) (op : SyncOp) (u' : Nat) (t' : String),
      versionOf db.logs u' t' ≤ versionOf (applySyncOp db op).logs u' t') := by
  constructor
  · intro db u t changes now hvalid
    have hlogs : (processChanges u t now ⟨get_or_create_sync_log db u t, [], [], []⟩
        changes).db.logs = (get_or_create_sync_log db u t).logs :=
      processChanges_logs u t now changes _
    have hex : (findLog (processChanges u t now ⟨get_or_create_sync_log db u t, [], [], []⟩
        changes).db.logs u t).isSome := by
      rw [hlogs]; exact getOrCreate_exists db u t
    have h1 := bumpLog_versionOf_self _ u t now hex
    have h2 : versionOf (processChanges u t now ⟨get_or_create_sync_log db u t, [], [], []⟩
        changes).db.logs u t = versionOf db.logs u t := by
      rw [hlogs]; exact getOrCreate_versionOf db u t u t
    constructor
    · unfold push_changes
      rw [if_pos hvalid]
      show versionOf (bumpLog (processChanges u t now
        ⟨get_or_create_sync_log db u t, [], [], []⟩ changes).db.logs u t now) u t = _
      rw [h1, h2]
    · intro resp hresp
      unfold push_changes at hresp
      rw [if_pos hvalid] at hresp
      have hresp2 : some (⟨versionOf (bumpLog (processChanges u t now
            ⟨get_or_create_sync_log db u t, [], [], []⟩ changes).db.logs u t now) u t,
          (processChanges u t now ⟨get_or_create_sync_log db u t, [], [], []⟩
            changes).accepted,
          (processChanges u t now ⟨get_or_create_sync_log db u t, [], [], []⟩
            changes).conflicts,
          (processChanges u t now ⟨get_or_create_sync_log db u t, [], [], []⟩
            changes).id_mapping⟩ : SyncPushResponse) = some resp := hresp
      rw [← Option.some.inj hresp2]
      show versionOf (bumpLog (processChanges u t now
        ⟨get_or_create_sync_log db u t, [], [], []⟩ changes).db.logs u t now) u t = _
      rw [h1, h2]
  · intro db op u' t'
    cases op with
    | push u t changes now =>
      show versionOf (push_changes db u t changes now).1.logs u' t' ≥ _
      by_cases hv : t ∈ validTables
      · unfold push_changes
        rw [if_pos hv]
        calc versionOf db.logs u' t'
            = versionOf (get_or_create_sync_log db u t).logs u' t' :=
              (getOrCreate_versionOf db u t u' t').symm
          _ = versionOf (processChanges u t now
                ⟨get_or_create_sync_log db u t, [], [], []⟩ changes).db.logs u' t' := by
              rw [processChanges_logs]
          _ ≤ _ := bumpLog_versionOf_ge _ u t now u' t'
      · unfold push_changes
        rw [if_neg hv]
    | pull u t s =>
      show versionOf (pull_changes db u t s).1.logs u' t' ≥ _
      by_cases hv : t ∈ validTables
      · unfold pull_changes
        rw [if_pos hv]
        exact Nat.le_of_eq (getOrCreate_versionOf db u t u' t').symm
      · unfold pull_changes
        rw [if_neg hv]
    | status u => exact Nat.le_refl _

/-- Witness for `sync_version_bumps_exactly_one_per_push`: a one-change push
against an empty store takes the version of (user 1, "wallets") from 0 to 1. -/
theorem sync_version_bumps_witness :
    "wallets" ∈ validTables ∧
    versionOf (push_changes ⟨[], [], 0⟩ 1 "wallets" [⟨5, none, "create", [], 0⟩] 0).1.logs
      1 "wallets" = versionOf ([] : List SyncLog) 1 "wallets" + 1 :=
  ⟨by decide,
   (sync_version_bumps_exactly_one_per_push.1 ⟨[], [], 0⟩ 1 "wallets"
     [⟨5, none, "create", [], 0⟩] 0 (by decide)).1⟩

/-- Claim C5 — a push change aimed at a server id that does not exist for the
owning user: an `update` yields exactly one `delete_conflict` entry with empty
server data and no accepted entry (and leaves the store untouched); a `delete`
is a silent no-op — no conflict, no accepted entry, store unchanged. The
single-change-batch corollary gives the response shape. -/
theorem push_missing_target_semantics (u : Nat) (t : String) (now : Nat)
    (db : SyncDb) (ch : SyncChange) (sid : Nat)
    (hsid : ch.server_id = some sid)
    (hmiss : findTableRow db.rows t u sid = none) :
    (ch.action = "update" →
      processChange u t now db ch
        = ⟨db, none, some ⟨ch.id, sid, ch.data, [], "delete_conflict"⟩, none⟩) ∧
    (ch.action = "delete" →
      processChange u t now db ch = ⟨db, none, none, none⟩) ∧
    (ch.action = "update" → t ∈ validTables →
      ∀ resp, (push_changes db u t [ch] now).2 = some resp →
        resp.conflicts = [⟨ch.id, sid, ch.data, [], "delete_conflict"⟩] ∧
        resp.accepted = []) := by
  refine ⟨?_, ?_, ?_⟩
  · intro hup
    simp [processChange, hup, hsid, hmiss]
  · intro hdel
    simp [processChange, hdel, hsid, hmiss]
  · intro hup hvalid resp hresp
    have hmiss1 : findTableRow (get_or_create_sync_log db u t).rows t u sid = none := by
      rw [getOrCreate_rows]; exact hmiss
    have hch : processChange u t now (get_or_create_sync_log db u t) ch
        = ⟨get_or_create_sync_log db u t, none,
           some ⟨ch.id, sid, ch.data, [], "delete_conflict"⟩, none⟩ := by
      simp [processChange, hup, hsid, hmiss1]
    have hst : processChanges u t now ⟨get_or_create_sync_log db u t, [], [], []⟩ [ch]
        = ⟨get_or_create_sync_log db u t, [],
           [⟨ch.id, sid, ch.data, [], "delete_conflict"⟩], []⟩ := by
      simp only [processChanges, hch]
      rfl
    unfold push_changes at hresp
    rw [if_pos hvalid] at hresp
    have hresp2 : some (⟨versionOf (bumpLog (processChanges u t now
          ⟨get_or_create_sync_log db u t, [], [], []⟩ [ch]).db.logs u t now) u t,
        (processChanges u t now ⟨get_or_create_sync_log db u t, [], [], []⟩ [ch]).accepted,
        (processChanges u t now ⟨get_or_create_sync_log db u t, [], [], []⟩ [ch]).conflicts,
        (processChanges u t now ⟨get_or_create_sync_log db u t, [], [], []⟩ [ch]).id_mapping⟩
        : SyncPushResponse) = some resp := hresp
    rw [hst] at hresp2
    rw [← Option.some.inj hresp2]
    exact ⟨rfl, rfl⟩

/-- Witness for `push_missing_target_semantics` on an empty store: the update
produces the single conflict, the delete is a silent no-op. -/
theorem push_missing_target_witness :
    processChange 1 "wallets" 5 ⟨[], [], 0⟩ ⟨77, some 9, "update", [("title", .vStr "x")], 0⟩
      = ⟨⟨[], [], 0⟩, none,
         some ⟨77, 9, [("title", .vStr "x")], [], "delete_conflict"⟩, none⟩ ∧
    processChange 1 "wallets" 5 ⟨[], [], 0⟩ ⟨78, some 9, "delete", [], 0⟩
      = ⟨⟨[], [], 0⟩, none, none, none⟩ :=
  ⟨(push_missing_target_semantics 1 "wallets" 5 ⟨[], [], 0⟩
      ⟨77, some 9, "update", [("title", .vStr "x")], 0⟩ 9 rfl rfl).1 rfl,
   (push_missing_target_semantics 1 "wallets" 5 ⟨[], [], 0⟩
      ⟨78, some 9, "delete", [], 0⟩ 9 rfl rfl).2.1 rfl⟩

/-- Claim C6 — pull returns the full serialized snapshot of the requesting
user's rows in the table, independently of `since_version`, with `has_more`
always false; serialization renders dates, datetimes and identifiers as
strings (`isoformat` / `str`) and never leaves a raw date, datetime or
identifier value in the output. -/
theorem pull_full_snapshot_semantics :
    (∀ (db : SyncDb) (u : Nat) (t : String) (s s' : Nat),
      pull_changes db u t s = pull_changes db u t s') ∧
    (∀ (db : SyncDb) (u : Nat) (t : String) (s : Nat), t ∈ validTables →
      (pull_changes db u t s).2
        = some ⟨(userRows (get_or_create_sync_log db u t) t u).map serializeRow,
                versionOf (get_or_create_sync_log db u t).logs u t, false⟩) ∧
    (∀ v : Val, (∀ d, serializeVal v ≠ .vDate d) ∧ (∀ ts, serializeVal v ≠ .vDateTime ts) ∧
      (∀ w, serializeVal v ≠ .vUuid w)) ∧
    (∀ d, serializeVal (.vDate d) = .vStr (dateIso d)) ∧
    (∀ ts, serializeVal (.vDateTime ts) = .vStr (datetimeIso ts)) ∧
    (∀ w, serializeVal (.vUuid w) = .vStr (uuidStr w)) := by
  refine ⟨?_, ?_, ?_, fun d => rfl, fun ts => rfl, fun w => rfl⟩
  · intro db u t s s'
    rfl
  · intro db u t s hvalid
    unfold pull_changes
    rw [if_pos hvalid]
  · intro v
    cases v <;> simp [serializeVal]

/-- A store with one wallet row holding a date and identifier columns. -/
def pullDb : SyncDb :=
  ⟨[⟨1, "wallets", 4, none⟩],
   [("wallets", ⟨[("id", .vUuid 3), ("user_id", .vUuid 1),
                  ("created_at", .vDate ⟨2024,1,2⟩)]⟩)], 10⟩

/-- Witness for `pull_full_snapshot_semantics` at a concrete store. -/
theorem pull_full_snapshot_witness :
    "wallets" ∈ validTables ∧
    (pull_changes pullDb 1 "wallets" 42).2
      = some ⟨(userRows (get_or_create_sync_log pullDb 1 "wallets") "wallets" 1).map
                serializeRow,
              versionOf (get_or_create_sync_log pullDb 1 "wallets").logs 1 "wallets",
              false⟩ :=
  ⟨by decide, pull_full_snapshot_semantics.2.1 pullDb 1 "wallets" 42 (by decide)⟩

/-- Claim C10 — no push change can set a stored row's `id` or `user_id` from
client data: a create persists exactly one new row whose `id` is the freshly
minted server id and whose `user_id` is the authenticated user, whatever the
change's data map said; an update applies only the field map with `id`,
`user_id` and `sync_status` stripped, and that stripped setattr loop leaves
the row's `id` and `user_id` unchanged. -/
theorem push_identity_protected :
    (∀ (u : Nat) (t : String) (now : Nat) (db : SyncDb) (ch : SyncChange),
      ch.action = "create" →
      (processChange u t now db ch).db.rows
        = db.rows ++ [(t, ⟨createRecordData ch.data u db.nextId⟩)] ∧
      getVal (createRecordData ch.data u db.nextId) "id" = some (.vUuid db.nextId) ∧
      getVal (createRecordData ch.data u db.nextId) "user_id" = some (.vUuid u)) ∧
    (∀ (u : Nat) (t : String) (now : Nat) (db : SyncDb) (ch : SyncChange)
        (sid : Nat) (r : SyncRow),
      ch.action = "update" → ch.server_id = some sid →
      findTableRow db.rows t u sid = some r →
      (processChange u t now db ch).db.rows
        = updateFirstRow (fun x => applyUpdateData x (stripIdentity ch.data))
            db.rows t u sid) ∧
    (∀ (r : SyncRow) (data : List (String × Val)),
      getVal (applyUpdateData r (stripIdentity data)).attrs "id" = getVal r.attrs "id" ∧
      getVal (applyUpdateData r (stripIdentity data)).attrs "user_id"
        = getVal r.attrs "user_id") := by
  refine ⟨?_, ?_, ?_⟩
  · intro u t now db ch hcr
    refine ⟨by simp [processChange, hcr], ?_, ?_⟩
    · unfold createRecordData
      rw [getVal_removeKey_ne _ _ _ (by decide),
          getVal_removeKey_ne _ _ _ (by decide),
          getVal_setKey_self]
    · unfold createRecordData
      rw [getVal_removeKey_ne _ _ _ (by decide),
          getVal_removeKey_ne _ _ _ (by decide),
          getVal_setKey_ne _ _ _ _ (by decide),
          getVal_setKey_self]
  · intro u t now db ch sid r hup hsid hfound
    simp [processChange, hup, hsid, hfound]
  · intro r data
    constructor
    · exact applyUpdateData_getVal (stripIdentity data) "id" r
        (fun kv hkv => (stripIdentity_keys hkv).1)
    · exact applyUpdateData_getVal (stripIdentity data) "user_id" r
        (fun kv hkv => (stripIdentity_keys hkv).2)

/-- A malicious create change trying to dictate `id` and `user_id`. -/
def evilChange : SyncChange :=
  ⟨77, none, "create", [("id", .vUuid 999), ("user_id", .vUuid 888),
                        ("name", .vStr "hack")], 0⟩

/-- Witness for `push_identity_protected`: the persisted row carries the
server-minted id 10 and the authenticated user 1, not the client's 999/888. -/
theorem push_identity_protected_witness :
    evilChange.action = "create" ∧
    getVal (createRecordData evilChange.data 1 10) "id" = some (.vUuid 10) ∧
    getVal (createRecordData evilChange.data 1 10) "user_id" = some (.vUuid 1) :=
  ⟨rfl,
   (push_identity_protected.1 1 "wallets" 0 ⟨[], [], 10⟩ evilChange rfl).2.1,
   (push_identity_protected.1 1 "wallets" 0 ⟨[], [], 10⟩ evilChange rfl).2.2⟩
